import Mathlib

/-!
Verification of `scripts/generate_icon.py`: a procedural orb-icon shader
(`generate_orb_icon`) and a from-scratch PNG encoder (`create_png`).

Embedding conventions:
* bytes are `ℕ` (each meant to lie in `[0,255]`), byte strings are `List ℕ`;
* Python integers are `ℤ`; Python floats are idealized as real numbers `ℝ`;
* fallible operations (list indexing `pixels[i]`, `struct.pack` range checks)
  return `Option`, mirroring Python exceptions (`IndexError`, `struct.error`);
* `zlib.compress` is an external library routine, so `create_png` takes the
  compressor as an explicit function parameter; no claim depends on its output;
* `zlib.crc32` is the standard CRC-32 (polynomial `0xEDB88320`, initial value
  `0xFFFFFFFF`, final xor `0xFFFFFFFF`), implemented here bit by bit.
-/

/-- A pixel as produced by the Python code: a 4-tuple `(r, g, b, a)` of
Python integers. -/
def Pixel : Type := ℤ × ℤ × ℤ × ℤ

instance : DecidableEq Pixel := by unfold Pixel; infer_instance

/-- `struct.pack` of a `'>I'` field: big-endian 4-byte encoding of a value
(caller must ensure `v < 2^32`). -/
def be32 (v : ℕ) : List ℕ :=
  [v / 16777216 % 256, v / 65536 % 256, v / 256 % 256, v % 256]

/-- One CRC-32 bit step: shift right, xor the reflected polynomial on a
set low bit. -/
def crcStep (c : ℕ) : ℕ :=
  if c % 2 = 1 then (c / 2) ^^^ 0xEDB88320 else c / 2

/-- Fold one byte into the CRC-32 accumulator (8 bit steps). -/
def crcByte (c b : ℕ) : ℕ := crcStep^[8] (c ^^^ b)

/-- `zlib.crc32`: CRC-32 of a byte string. -/
def crc32 (data : List ℕ) : ℕ :=
  (data.foldl crcByte 0xFFFFFFFF) ^^^ 0xFFFFFFFF

/-- ASCII bytes of `b'IHDR'`. -/
def ihdrTag : List ℕ := [73, 72, 68, 82]

/-- ASCII bytes of `b'IDAT'`. -/
def idatTag : List ℕ := [73, 68, 65, 84]

/-- ASCII bytes of `b'IEND'`. -/
def iendTag : List ℕ := [73, 69, 78, 68]

/-- The 8-byte PNG signature `b'\x89PNG\r\n\x1a\n'`. -/
def pngSig : List ℕ := [137, 80, 78, 71, 13, 10, 26, 10]

/-- The inner helper `chunk(ctype, data)` of `create_png`:
`struct.pack('>I', len(data)) + c + struct.pack('>I', zlib.crc32(c) & 0xffffffff)`
with `c = ctype + data`.  `struct.pack('>I', ·)` raises unless the value fits
in 32 bits, hence the guard on `len(data)` (the masked CRC always fits). -/
def chunk (ctype data : List ℕ) : Option (List ℕ) :=
  let c := ctype ++ data
  if data.length < 4294967296 then
    some (be32 data.length ++ c ++ be32 (crc32 c &&& 0xffffffff))
  else none

/-- `struct.pack('BBBB', r, g, b, a)` for a single channel: range-checked
byte. -/
def packB (v : ℤ) : Option ℕ :=
  if 0 ≤ v ∧ v ≤ 255 then some v.toNat else none

/-- `struct.pack('BBBB', r, g, b, a)`: the four channel bytes of a pixel,
failing (like `struct.error`) if any channel is out of byte range. -/
def packPixel (p : Pixel) : Option (List ℕ) := do
  let r ← packB p.1
  let g ← packB p.2.1
  let b ← packB p.2.2.1
  let a ← packB p.2.2.2
  pure [r, g, b, a]

/-- The scanline-building loop of `create_png`: for each row a filter byte
`0`, then the packed bytes of `pixels[y * width + x]` for each column;
`pixels[·]` out of range is Python's `IndexError`, modelled by `none`. -/
def buildRaw (width height : ℕ) (pixels : List Pixel) : Option (List ℕ) :=
  (List.range height).foldlM (fun raw y =>
    (List.range width).foldlM (fun raw2 x => do
      let p ← pixels[y * width + x]?
      let bs ← packPixel p
      pure (raw2 ++ bs)) (raw ++ [0])) []

/-- `struct.pack('>IIBBBBB', width, height, 8, 6, 0, 0, 0)`: the IHDR
payload, range-checked on the two 32-bit fields. -/
def packIHDR (width height : ℕ) : Option (List ℕ) :=
  if width < 4294967296 ∧ height < 4294967296 then
    some (be32 width ++ be32 height ++ [8, 6, 0, 0, 0])
  else none

/-- `create_png(width, height, pixels)`, with `zlib.compress(raw, 9)`
abstracted as the function parameter `compress`. -/
def create_png (compress : List ℕ → List ℕ) (width height : ℕ)
    (pixels : List Pixel) : Option (List ℕ) := do
  let raw ← buildRaw width height pixels
  let ihdr ← packIHDR width height
  let c1 ← chunk ihdrTag ihdr
  let c2 ← chunk idatTag (compress raw)
  let c3 ← chunk iendTag []
  pure (pngSig ++ c1 ++ c2 ++ c3)

/-- The spec's serialization format for a PNG chunk: 4-byte big-endian
payload length, type tag, payload, 4-byte big-endian CRC-32 of
(type tag + payload). -/
def chunkSer (ctype data : List ℕ) : List ℕ :=
  be32 data.length ++ ctype ++ data ++ be32 (crc32 (ctype ++ data) &&& 0xffffffff)

/-- The stored CRC field of a serialized chunk: its last 4 bytes. -/
def storedCRC (chunkBytes : List ℕ) : List ℕ :=
  chunkBytes.drop (chunkBytes.length - 4)

/-- The 4 bytes (R,G,B,A) of a byte-valued pixel. -/
def pxBytes (p : Pixel) : List ℕ :=
  [p.1.toNat, p.2.1.toNat, p.2.2.1.toNat, p.2.2.2.toNat]

/-- The spec's description of the raw scanline buffer: for each row, a
single filter-type byte `0`, then the 4 bytes (R,G,B,A) of each of that
row's `width` pixels, concatenated over all rows. -/
def scanlineSpec (width height : ℕ) (pixels : List Pixel) : List ℕ :=
  (List.range height).flatMap (fun y =>
    0 :: ((pixels.drop (y * width)).take width).flatMap pxBytes)

/-- A pixel whose four channels are all in byte range. -/
def validPixel (p : Pixel) : Prop :=
  (0 ≤ p.1 ∧ p.1 ≤ 255) ∧ (0 ≤ p.2.1 ∧ p.2.1 ≤ 255) ∧
  (0 ≤ p.2.2.1 ∧ p.2.2.1 ≤ 255) ∧ (0 ≤ p.2.2.2 ∧ p.2.2.2 ≤ 255)

instance (p : Pixel) : Decidable (validPixel p) := by
  unfold validPixel; infer_instance

/-! ## The shader `generate_orb_icon`

Python floats are idealized as reals: `**` with a float exponent is `Real.rpow`
(all bases here are nonnegative), `math.atan2` is the argument of a complex
number, `int(·)` truncates toward zero, and float `% 1.0` is `Int.fract`. -/

/-- `lerp(a, b, t) = a + (b - a) * t`. -/
noncomputable def lerp (a b t : ℝ) : ℝ := a + (b - a) * t

/-- Python `int(v)` for a float `v`: truncation toward zero. -/
noncomputable def pyInt (v : ℝ) : ℤ := if 0 ≤ v then ⌊v⌋ else ⌈v⌉

/-- `clamp(v) = max(0, min(255, int(v)))`. -/
noncomputable def clamp (v : ℝ) : ℤ := max 0 (min 255 (pyInt v))

/-- `smoothstep(e0, e1, x)`: cubic Hermite ease, with the source's guard
against `e1 == e0`. -/
noncomputable def smoothstep (e0 e1 x : ℝ) : ℝ :=
  let t := if e1 ≠ e0 then max 0 (min 1 ((x - e0) / (e1 - e0))) else 0
  t * t * (3 - 2 * t)

/-- `math.atan2(y, x)`: the angle of the point `(x, y)`, in `(-π, π]`. -/
noncomputable def atan2 (y x : ℝ) : ℝ := Complex.arg ⟨x, y⟩

/-- The superellipse metric of pixel `(x, y)` at a given `size`:
`sq = |nx| ** 4.8 + |ny| ** 4.8` with `nx = (x - cx) / (size * 0.44)`,
`ny = (y - cy) / (size * 0.44)`, `cx = cy = size / 2`. -/
noncomputable def sqMetric (size x y : ℕ) : ℝ :=
  let s : ℝ := size
  let cx := s / 2
  let cy := s / 2
  let nx := ((x : ℝ) - cx) / (s * 0.44)
  let ny := ((y : ℝ) - cy) / (s * 0.44)
  |nx| ^ (4.8 : ℝ) + |ny| ^ (4.8 : ℝ)

/-- The five aurora band tints `colors[i]`, in source order. -/
def tints : Fin 5 → ℝ × ℝ × ℝ := fun i =>
  match i with
  | ⟨0, _⟩ => (0, 200, 240)
  | ⟨1, _⟩ => (30, 160, 200)
  | ⟨2, _⟩ => (100, 60, 200)
  | ⟨3, _⟩ => (180, 40, 160)
  | ⟨4, _⟩ => (220, 20, 90)
  | ⟨n + 5, h⟩ => absurd h (by omega)

/-- One iteration of the aurora-ribbon loop: band `i` additively blended
onto the accumulated color `(fr, fg, fb)` (guarded by `inten > 0` as in the
source). -/
noncomputable def auroraBand (angle norm : ℝ) (i : Fin 5) (c : ℝ × ℝ × ℝ) :
    ℝ × ℝ × ℝ :=
  let k : ℝ := (i : ℕ)
  let wave := Real.sin (angle * (2.2 + k * 0.6) + k * 1.257 + 0.5) * 0.5 + 0.5
  let inten := max 0 (1 - |norm - (0.55 + k * 0.15)| / (0.18 + k * 0.04)) *
    wave * 0.3
  if inten > 0 then
    (c.1 + (tints i).1 * inten, c.2.1 + (tints i).2.1 * inten,
      c.2.2 + (tints i).2.2 * inten)
  else c

/-- The spec's formula for band `i`'s intensity:
`inten = max(0, 1 - |norm - (0.55 + 0.15i)| / (0.18 + 0.04i)) * wave * 0.3`
with `wave = 0.5 + 0.5 * sin(angle * (2.2 + 0.6i) + 1.257i + 0.5)`. -/
noncomputable def auroraIntenSpec (i : Fin 5) (angle norm : ℝ) : ℝ :=
  max 0 (1 - |norm - (0.55 + 0.15 * (i : ℕ))| / (0.18 + 0.04 * (i : ℕ))) *
    (0.5 + 0.5 * Real.sin (angle * (2.2 + 0.6 * (i : ℕ)) + 1.257 * (i : ℕ) + 0.5)) *
    0.3

/-- The color pipeline of the in-mask branch of `generate_orb_icon`
(background gradient, aurora ribbons, core orb / glow halo, specular
highlights, access ring), before the final clamp. -/
noncomputable def colorAt (size x y : ℕ) : ℝ × ℝ × ℝ :=
  let s : ℝ := size
  let cx := s / 2
  let cy := s / 2
  let radius := s * 0.34
  let dx := (x : ℝ) - cx
  let dy := (y : ℝ) - cy
  let dist := Real.sqrt (dx * dx + dy * dy)
  let norm := dist / radius
  let angle := atan2 dy dx
  -- Background
  let bg_grad := (y : ℝ) / s
  let fr := lerp 16 8 bg_grad
  let fg := lerp 16 10 bg_grad
  let fb := lerp 22 14 bg_grad
  let cgl := max 0 (1 - norm * 0.6) ^ 2
  let fr := fr + cgl * 6
  let fg := fg + cgl * 12
  let fb := fb + cgl * 18
  -- Aurora ribbons
  let c := (List.finRange 5).foldl (fun c i => auroraBand angle norm i c)
    (fr, fg, fb)
  let fr := c.1
  let fg := c.2.1
  let fb := c.2.2
  -- Core orb
  let c :=
    if norm < 1 then
      let t := norm
      let fo := smoothstep 1 0 t
      let or_ := lerp 20 110 t * fo
      let og := lerp 230 70 t * fo
      let ob := lerp 255 210 t * fo
      let oa := fo * 0.88
      let inn := max 0 (1 - norm * 3) ^ 2
      let or_ := or_ + inn * 60
      let og := og + inn * 80
      let ob := ob + inn * 40
      (lerp fr or_ oa, lerp fg og oa, lerp fb ob oa)
    else if norm < 1.35 then
      let fade := 1 - (norm - 1) / 0.35
      let oa := fade * fade * 0.25
      (lerp fr 0 oa, lerp fg (160 * fade * fade) oa, lerp fb (210 * fade * fade) oa)
    else (fr, fg, fb)
  let fr := c.1
  let fg := c.2.1
  let fb := c.2.2
  -- Specular highlights
  let hd := Real.sqrt ((dx + radius * 0.3) ^ 2 + (dy + radius * 0.35) ^ 2) /
    (radius * 0.45)
  let sp := max 0 (1 - hd) ^ (3.5 : ℝ)
  let fr := fr + sp * 180
  let fg := fg + sp * 230
  let fb := fb + sp * 255
  let hd2 := Real.sqrt ((dx - radius * 0.22) ^ 2 + (dy - radius * 0.28) ^ 2) /
    (radius * 0.6)
  let sp2 := max 0 (1 - hd2) ^ 4
  let fr := fr + sp2 * 100
  let fg := fg + sp2 * 30
  let fb := fb + sp2 * 140
  -- Access ring
  let ri := radius * 1.05
  let ro := radius * 1.16
  if ri < dist ∧ dist < ro then
    let rt := (dist - ri) / (ro - ri)
    let ra := Real.sin (rt * Real.pi) * 0.55
    let seg := ((angle + Real.pi) / (2 * Real.pi)) * 6
    let sf := Int.fract seg
    let ra := ra * (smoothstep 0 0.06 sf * smoothstep 1 0.94 sf)
    (lerp fr 0 ra, lerp fg 220 ra, lerp fb 255 ra)
  else (fr, fg, fb)

/-- The per-pixel body of `generate_orb_icon`'s double loop: the transparent
short-circuit for `sq > 1.0`, otherwise the clamped color with alpha
`clamp(255 * edge_aa)`, `edge_aa = smoothstep(1.0, 0.96, sq)`. -/
noncomputable def shadePixel (size x y : ℕ) : Pixel :=
  let sq := sqMetric size x y
  if sq > 1 then (0, 0, 0, 0)
  else
    let edge_aa := smoothstep 1 0.96 sq
    let c := colorAt size x y
    (clamp c.1, clamp c.2.1, clamp c.2.2, clamp (255 * edge_aa))

/-- `generate_orb_icon(size)`: the row-major double loop appending one pixel
per coordinate, `y` outer, `x` inner. -/
noncomputable def generate_orb_icon (size : ℕ) : List Pixel :=
  (List.range size).foldl (fun acc y =>
    (List.range size).foldl (fun acc2 x => acc2 ++ [shadePixel size x y]) acc) []

/-! ## Structure of the shader's pixel list -/

theorem foldl_append_singleton {α β : Type*} (f : α → β) :
    ∀ (l : List α) (acc : List β),
    l.foldl (fun a x => a ++ [f x]) acc = acc ++ l.map f := by
  intro l
  induction l with
  | nil => intro acc; simp
  | cons z zs ih => intro acc; simp [ih]

theorem foldl_append_flatMap {α β : Type*} (g : α → List β) :
    ∀ (l : List α) (acc : List β),
    l.foldl (fun a z => a ++ g z) acc = acc ++ l.flatMap g := by
  intro l
  induction l with
  | nil => intro acc; simp
  | cons z zs ih => intro acc; simp [ih]

/-- The pixel list is the row-major grid of `shadePixel` values. -/
theorem render_eq (size : ℕ) :
    generate_orb_icon size =
      (List.range size).flatMap (fun y =>
        (List.range size).map (fun x => shadePixel size x y)) := by
  unfold generate_orb_icon
  have h : (fun (acc : List Pixel) (y : ℕ) =>
        (List.range size).foldl (fun acc2 x => acc2 ++ [shadePixel size x y]) acc)
      = fun acc y => acc ++ (List.range size).map (fun x => shadePixel size x y) := by
    funext acc y
    exact foldl_append_singleton _ _ _
  rw [h]
  simpa using foldl_append_flatMap
    (fun y => (List.range size).map (fun x => shadePixel size x y))
    (List.range size) []

theorem render_length (size : ℕ) :
    (generate_orb_icon size).length = size * size := by
  rw [render_eq, List.length_flatMap]
  have h : List.map
        (List.length ∘ fun y => (List.range size).map (fun x => shadePixel size x y))
        (List.range size) = List.replicate size size := by
    simp [Function.comp_def, List.map_const']
  rw [h, List.sum_replicate, smul_eq_mul]

theorem grid_get {α : Type*} (g : ℕ → ℕ → α) (w : ℕ) :
    ∀ (h a y x : ℕ), x < w → y < h →
    ((List.range' a h).flatMap (fun yy =>
      (List.range' 0 w).map (fun xx => g xx yy)))[y * w + x]? = some (g x (a + y)) := by
  intro h
  induction h with
  | zero => intro a y x hx hy; exact absurd hy (Nat.not_lt_zero y)
  | succ n ih =>
    intro a y x hx hy
    rw [List.range'_succ, List.flatMap_cons]
    cases y with
    | zero =>
      simp only [Nat.zero_mul, Nat.zero_add, Nat.add_zero]
      rw [List.getElem?_append_left (by simpa using hx)]
      rw [List.getElem?_map, List.getElem?_range' 0 1 hx]
      simp
    | succ y' =>
      have hle : ((List.range' 0 w).map (fun xx => g xx a)).length ≤ (y' + 1) * w + x := by
        simp [Nat.succ_mul]
        omega
      rw [List.getElem?_append_right hle]
      have hidx : (y' + 1) * w + x - ((List.range' 0 w).map (fun xx => g xx a)).length
          = y' * w + x := by
        simp [Nat.succ_mul]
        omega
      rw [hidx, ih (a + 1) y' x hx (by omega)]
      have h3 : a + 1 + y' = a + (y' + 1) := by omega
      rw [h3]

/-- The pixel at row-major index `y * size + x` is `shadePixel size x y`. -/
theorem render_get (size x y : ℕ) (hx : x < size) (hy : y < size) :
    (generate_orb_icon size)[y * size + x]? = some (shadePixel size x y) := by
  rw [render_eq]
  simp only [List.range_eq_range']
  simpa using grid_get (fun xx yy => shadePixel size xx yy) size size 0 y x hx hy

/-- Every member of the pixel list is a `shadePixel` value. -/
theorem render_mem {size : ℕ} {p : Pixel} (hp : p ∈ generate_orb_icon size) :
    ∃ x y, x < size ∧ y < size ∧ p = shadePixel size x y := by
  rw [render_eq] at hp
  rcases List.mem_flatMap.1 hp with ⟨yy, hyy, hmem⟩
  rcases List.mem_map.1 hmem with ⟨xx, hxx, rfl⟩
  exact ⟨xx, yy, List.mem_range.1 hxx, List.mem_range.1 hyy, rfl⟩

/-! ## Per-pixel facts -/

theorem shadePixel_of_gt {size x y : ℕ} (h : sqMetric size x y > 1) :
    shadePixel size x y = (0, 0, 0, 0) := by
  simp only [shadePixel]
  rw [if_pos h]

theorem shadePixel_of_le {size x y : ℕ} (h : ¬ sqMetric size x y > 1) :
    shadePixel size x y =
      (clamp (colorAt size x y).1, clamp (colorAt size x y).2.1,
        clamp (colorAt size x y).2.2,
        clamp (255 * smoothstep 1 0.96 (sqMetric size x y))) := by
  simp only [shadePixel]
  rw [if_neg h]

theorem clamp_nonneg (v : ℝ) : 0 ≤ clamp v := le_max_left 0 _

theorem clamp_le_255 (v : ℝ) : clamp v ≤ 255 :=
  max_le (by norm_num) (min_le_left _ _)

theorem smoothstep_edge_one {x : ℝ} (h : x ≤ 0.96) : smoothstep 1 0.96 x = 1 := by
  simp only [smoothstep]
  have hne : (0.96 : ℝ) ≠ 1 := by norm_num
  rw [if_pos hne]
  have heq : (x - 1) / (0.96 - 1) = 25 * (1 - x) := by ring
  have h1 : (1 : ℝ) ≤ 25 * (1 - x) := by linarith
  rw [heq, min_eq_left h1]
  norm_num

theorem clamp_const_255 : clamp (255 : ℝ) = 255 := by
  unfold clamp pyInt
  rw [if_pos (by norm_num : (0 : ℝ) ≤ 255)]
  norm_num

/-! ## Concrete superellipse-metric evaluations -/

/-- At size 1, the single pixel `(0,0)` normalizes to `|nx| = |ny| = 25/22 > 1`,
so its superellipse metric exceeds 1. -/
theorem sqMetric_one_gt : 1 < sqMetric 1 0 0 := by
  simp only [sqMetric, Nat.cast_one, Nat.cast_zero]
  have hx : |((0 : ℝ) - 1 / 2) / (1 * 0.44)| = 25 / 22 := by
    rw [show ((0 : ℝ) - 1 / 2) / (1 * 0.44) = -(25 / 22) by norm_num, abs_neg,
      abs_of_nonneg (by norm_num : (0 : ℝ) ≤ 25 / 22)]
  rw [hx]
  have h25 : (1 : ℝ) < (25 / 22 : ℝ) ^ (4.8 : ℝ) := by
    rw [Real.one_lt_rpow_iff_of_pos (by norm_num)]
    exact Or.inl ⟨by norm_num, by norm_num⟩
  linarith

/-- At size 2, the pixel `(1,1)` sits exactly at the center, so its
superellipse metric is 0. -/
theorem sqMetric_two_center : sqMetric 2 1 1 = 0 := by
  simp only [sqMetric, Nat.cast_ofNat, Nat.cast_one]
  have hx : |((1 : ℝ) - 2 / 2) / (2 * 0.44)| = 0 := by
    norm_num
  rw [hx, Real.zero_rpow (by norm_num)]
  norm_num

theorem sqMetric_two_center_le : sqMetric 2 1 1 ≤ 0.96 := by
  rw [sqMetric_two_center]; norm_num

/-- `generate_orb_icon 1` is the single transparent pixel. -/
theorem render_one : generate_orb_icon 1 = [(0, 0, 0, 0)] := by
  rw [render_eq]
  have h1 : List.range 1 = [0] := rfl
  simp only [h1, List.flatMap_cons, List.flatMap_nil, List.map_cons,
    List.map_nil, List.append_nil]
  rw [shadePixel_of_gt sqMetric_one_gt]

/-! ## Shader claims -/

/-- C1: for every positive `size`, `generate_orb_icon size` has exactly
`size * size` pixels, and the pixel for integer coordinate `(x, y)` with
`0 ≤ x, y < size` sits at row-major index `y * size + x` (rows top-to-bottom,
columns left-to-right). -/
theorem c1_render_size_row_major (size x y : ℕ) (hs : 0 < size)
    (hx : x < size) (hy : y < size) :
    (generate_orb_icon size).length = size * size ∧
    (generate_orb_icon size)[y * size + x]? = some (shadePixel size x y) :=
  ⟨render_length size, render_get size x y hx hy⟩

theorem c1_witness :
    (generate_orb_icon 1).length = 1 * 1 ∧
    (generate_orb_icon 1)[0 * 1 + 0]? = some (shadePixel 1 0 0) :=
  c1_render_size_row_major 1 0 0 (by decide) (by decide) (by decide)

/-- C2: for every size and coordinate `(x, y)` whose superellipse metric
`sq = |nx|^4.8 + |ny|^4.8` exceeds 1, the pixel of `generate_orb_icon size`
at row-major position `y * size + x` is exactly `(0, 0, 0, 0)`. -/
theorem c2_outside_mask_transparent (size x y : ℕ) (hx : x < size)
    (hy : y < size) (hsq : sqMetric size x y > 1) :
    (generate_orb_icon size)[y * size + x]? = some (0, 0, 0, 0) := by
  rw [render_get size x y hx hy, shadePixel_of_gt hsq]

theorem c2_witness : (generate_orb_icon 1)[0 * 1 + 0]? = some (0, 0, 0, 0) :=
  c2_outside_mask_transparent 1 0 0 (by decide) (by decide) sqMetric_one_gt

/-- C3 counterexample: the single pixel of `generate_orb_icon 1` is not an
opaque alpha-255 pixel of any color; it is the transparent `(0, 0, 0, 0)`. -/
theorem c3_counterexample :
    ¬ ∃ r g b : ℤ, (generate_orb_icon 1).head? = some (r, g, b, 255) := by
  rw [render_one]
  rintro ⟨r, g, b, h⟩
  simp only [List.head?_cons, Option.some.injEq] at h
  have h255 : (255 : ℤ) = 0 := congrArg (fun p : ℤ × ℤ × ℤ × ℤ => p.2.2.2) h.symm
  norm_num at h255

/-- C3 (amended): `generate_orb_icon 1` evaluates its single pixel at `(0,0)`
with `cx = cy = 0.5`; its superellipse metric `sq = 2 * (25/22)^4.8 ≈ 3.69`
exceeds 1, so that pixel is the fully transparent `(0, 0, 0, 0)` — not an
opaque core-orb pixel. -/
theorem c3_amended :
    1 < sqMetric 1 0 0 ∧ generate_orb_icon 1 = [(0, 0, 0, 0)] :=
  ⟨sqMetric_one_gt, render_one⟩

/-- C5: every pixel of `generate_orb_icon size` (for positive `size`,
including `size = 1`) has all four channels in `[0, 255]`. -/
theorem c5_channels_in_range (size : ℕ) (p : Pixel) (hs : 0 < size)
    (hp : p ∈ generate_orb_icon size) : validPixel p := by
  rcases render_mem hp with ⟨x, y, hx, hy, rfl⟩
  unfold validPixel
  by_cases h : sqMetric size x y > 1
  · rw [shadePixel_of_gt h]
    norm_num
  · rw [shadePixel_of_le h]
    exact ⟨⟨clamp_nonneg _, clamp_le_255 _⟩, ⟨clamp_nonneg _, clamp_le_255 _⟩,
      ⟨clamp_nonneg _, clamp_le_255 _⟩, ⟨clamp_nonneg _, clamp_le_255 _⟩⟩

theorem c5_witness : validPixel ((0 : ℤ), (0 : ℤ), (0 : ℤ), (0 : ℤ)) :=
  c5_channels_in_range 1 (0, 0, 0, 0) (by decide) (by simp [render_one])

/-- C9: `generate_orb_icon` is deterministic — two calls at the same size
yield identical pixel lists — and its result is the grid of the pure
per-coordinate function `shadePixel` of `(x, y, size)` only (no randomness,
no external state). -/
theorem c9_deterministic (size : ℕ) (hs : 0 < size) :
    generate_orb_icon size = generate_orb_icon size ∧
    generate_orb_icon size =
      (List.range size).flatMap (fun y =>
        (List.range size).map (fun x => shadePixel size x y)) :=
  ⟨rfl, render_eq size⟩

theorem c9_witness :
    generate_orb_icon 1 = generate_orb_icon 1 ∧
    generate_orb_icon 1 =
      (List.range 1).flatMap (fun y =>
        (List.range 1).map (fun x => shadePixel 1 x y)) :=
  c9_deterministic 1 (by decide)

/-- C10: on the region `sq ≤ 0.96` the edge anti-aliasing factor
`smoothstep(1.0, 0.96, sq)` is 1, so the rendered pixel's alpha channel is
exactly 255 (fully opaque); partial alpha can occur only for
`0.96 < sq ≤ 1`. -/
theorem c10_core_alpha_opaque (size x y : ℕ) (hx : x < size) (hy : y < size)
    (hsq : sqMetric size x y ≤ 0.96) :
    Option.map (fun p : Pixel => p.2.2.2) ((generate_orb_icon size)[y * size + x]?)
      = some 255 := by
  rw [render_get size x y hx hy]
  have hle : ¬ sqMetric size x y > 1 := by
    push_neg
    linarith
  rw [shadePixel_of_le hle]
  simp only [Option.map_some']
  rw [smoothstep_edge_one hsq]
  norm_num [clamp_const_255]

theorem c10_witness :
    Option.map (fun p : Pixel => p.2.2.2) ((generate_orb_icon 2)[1 * 2 + 1]?)
      = some 255 :=
  c10_core_alpha_opaque 2 1 1 (by decide) (by decide) sqMetric_two_center_le

/-- C8: for every band index `i`, the aurora step adds exactly
`tint_channel * inten` to each accumulated channel, where
`inten = max(0, 1 - |norm - (0.55+0.15i)| / (0.18+0.04i)) * wave * 0.3` and
`wave = 0.5 + 0.5*sin(angle*(2.2+0.6i) + 1.257i + 0.5)` (the source's
`if inten > 0` guard is equivalent because `inten` is never negative), with
the five tints cyan, teal, violet, magenta, red-pink in source order. -/
theorem c8_aurora_band_blend (i : Fin 5) (angle norm : ℝ) (c : ℝ × ℝ × ℝ) :
    auroraBand angle norm i c =
      (c.1 + (tints i).1 * auroraIntenSpec i angle norm,
       c.2.1 + (tints i).2.1 * auroraIntenSpec i angle norm,
       c.2.2 + (tints i).2.2 * auroraIntenSpec i angle norm) ∧
    tints 0 = (0, 200, 240) ∧ tints 1 = (30, 160, 200) ∧
    tints 2 = (100, 60, 200) ∧ tints 3 = (180, 40, 160) ∧
    tints 4 = (220, 20, 90) := by
  refine ⟨?_, rfl, rfl, rfl, rfl, rfl⟩
  simp only [auroraBand]
  set k : ℝ := ((i : ℕ) : ℝ) with hk
  have harg : angle * (2.2 + 0.6 * k) + 1.257 * k + 0.5
      = angle * (2.2 + k * 0.6) + k * 1.257 + 0.5 := by ring
  have habs : norm - (0.55 + 0.15 * k) = norm - (0.55 + k * 0.15) := by ring
  have hden : (0.18 : ℝ) + 0.04 * k = 0.18 + k * 0.04 := by ring
  have hwav : ∀ u : ℝ, 0.5 + 0.5 * Real.sin u = Real.sin u * 0.5 + 0.5 := by
    intro u; ring
  have hspec : auroraIntenSpec i angle norm
      = max 0 (1 - |norm - (0.55 + k * 0.15)| / (0.18 + k * 0.04)) *
        (Real.sin (angle * (2.2 + k * 0.6) + k * 1.257 + 0.5) * 0.5 + 0.5) * 0.3 := by
    simp only [auroraIntenSpec, ← hk, harg, habs, hden, hwav]
  rw [hspec]
  by_cases hpos : max 0 (1 - |norm - (0.55 + k * 0.15)| / (0.18 + k * 0.04)) *
      (Real.sin (angle * (2.2 + k * 0.6) + k * 1.257 + 0.5) * 0.5 + 0.5) * 0.3 > 0
  · rw [if_pos hpos]
  · rw [if_neg hpos]
    have hw : (0 : ℝ) ≤ Real.sin (angle * (2.2 + k * 0.6) + k * 1.257 + 0.5) * 0.5 + 0.5 := by
      nlinarith [Real.neg_one_le_sin (angle * (2.2 + k * 0.6) + k * 1.257 + 0.5)]
    have h0 : max 0 (1 - |norm - (0.55 + k * 0.15)| / (0.18 + k * 0.04)) *
        (Real.sin (angle * (2.2 + k * 0.6) + k * 1.257 + 0.5) * 0.5 + 0.5) * 0.3 = 0 := by
      refine le_antisymm (not_lt.1 hpos) ?_
      exact mul_nonneg (mul_nonneg (le_max_left _ _) hw) (by norm_num)
    rw [h0]
    simp

/-! ## Structure of the scanline loop -/

/-- The per-column step of `buildRaw`'s inner loop. -/
def rowStep (pixels : List Pixel) (width y : ℕ) (raw2 : List ℕ) (x : ℕ) :
    Option (List ℕ) := do
  let p ← pixels[y * width + x]?
  let bs ← packPixel p
  pure (raw2 ++ bs)

theorem buildRaw_eq (w h : ℕ) (px : List Pixel) :
    buildRaw w h px = (List.range' 0 h).foldlM
      (fun raw y => (List.range' 0 w).foldlM (rowStep px w y) (raw ++ [0])) [] := by
  unfold buildRaw rowStep
  simp only [List.range_eq_range']

theorem packPixel_eq_of_valid {p : Pixel} (hp : validPixel p) :
    packPixel p = some (pxBytes p) := by
  obtain ⟨⟨h1, h2⟩, ⟨h3, h4⟩, ⟨h5, h6⟩, ⟨h7, h8⟩⟩ := hp
  unfold packPixel packB pxBytes
  rw [if_pos ⟨h1, h2⟩, if_pos ⟨h3, h4⟩, if_pos ⟨h5, h6⟩, if_pos ⟨h7, h8⟩]
  rfl

/-- Inner loop of `buildRaw`, successful case: appends the packed bytes of
the row segment. -/
theorem row_fold_eq (px : List Pixel) (w y : ℕ) :
    ∀ (k a : ℕ) (acc : List ℕ),
    (∀ j, j < k → ∃ p, px[y * w + (a + j)]? = some p ∧ validPixel p) →
    (List.range' a k).foldlM (rowStep px w y) acc
      = some (acc ++ ((px.drop (y * w + a)).take k).flatMap pxBytes) := by
  intro k
  induction k with
  | zero => intro a acc _; simp
  | succ n ih =>
    intro a acc hvalid
    rw [List.range'_succ, List.foldlM_cons]
    obtain ⟨p, hp, hpv⟩ := hvalid 0 (Nat.succ_pos n)
    have hp' : px[y * w + a]? = some p := by simpa using hp
    obtain ⟨hlt, hget⟩ := List.getElem?_eq_some.1 hp'
    have hstep : rowStep px w y acc a = some (acc ++ pxBytes p) := by
      unfold rowStep
      rw [hp']
      simp [packPixel_eq_of_valid hpv]
    rw [hstep]
    have hrec := ih (a + 1) (acc ++ pxBytes p) (by
      intro j hj
      obtain ⟨q, hq, hqv⟩ := hvalid (j + 1) (by omega)
      refine ⟨q, ?_, hqv⟩
      have heq : y * w + (a + 1 + j) = y * w + (a + (j + 1)) := by omega
      rw [heq]
      exact hq)
    simp only [Option.some_bind] at *
    rw [show ((some (acc ++ pxBytes p) : Option (List ℕ)) >>= fun b =>
      (List.range' (a + 1) n).foldlM (rowStep px w y) b)
      = (List.range' (a + 1) n).foldlM (rowStep px w y) (acc ++ pxBytes p) by rfl]
    rw [hrec]
    have hdrop : px.drop (y * w + a) = p :: px.drop (y * w + a + 1) := by
      rw [List.drop_eq_getElem_cons hlt, hget]
    rw [hdrop]
    simp [List.take_succ_cons, List.flatMap_cons, List.append_assoc,
      Nat.add_assoc]

/-- Outer loop of `buildRaw`, successful case. -/
theorem rows_fold_eq (px : List Pixel) (w : ℕ) :
    ∀ (h b : ℕ) (acc : List ℕ),
    (∀ r j, r < h → j < w → ∃ p, px[(b + r) * w + j]? = some p ∧ validPixel p) →
    (List.range' b h).foldlM
      (fun raw y => (List.range' 0 w).foldlM (rowStep px w y) (raw ++ [0])) acc
      = some (acc ++ (List.range' b h).flatMap (fun y =>
          0 :: ((px.drop (y * w)).take w).flatMap pxBytes)) := by
  intro h
  induction h with
  | zero => intro b acc _; simp
  | succ n ih =>
    intro b acc hvalid
    rw [List.range'_succ, List.foldlM_cons]
    have hrow := row_fold_eq px w b w 0 (acc ++ [0]) (by
      intro j hj
      obtain ⟨p, hp, hpv⟩ := hvalid 0 j (Nat.succ_pos n) hj
      refine ⟨p, ?_, hpv⟩
      simpa using hp)
    rw [hrow]
    have hrec := ih (b + 1) (acc ++ [0] ++ ((px.drop (b * w + 0)).take w).flatMap pxBytes)
      (by
        intro r j hr hj
        obtain ⟨p, hp, hpv⟩ := hvalid (r + 1) j (by omega) hj
        refine ⟨p, ?_, hpv⟩
        have heq : b + 1 + r = b + (r + 1) := by omega
        rw [heq]
        exact hp)
    rw [show ((some (acc ++ [0] ++ ((px.drop (b * w + 0)).take w).flatMap pxBytes) :
        Option (List ℕ)) >>= fun raw =>
        (List.range' (b + 1) n).foldlM
          (fun raw y => (List.range' 0 w).foldlM (rowStep px w y) (raw ++ [0])) raw)
      = (List.range' (b + 1) n).foldlM
          (fun raw y => (List.range' 0 w).foldlM (rowStep px w y) (raw ++ [0]))
          (acc ++ [0] ++ ((px.drop (b * w + 0)).take w).flatMap pxBytes) by rfl]
    rw [hrec]
    simp [List.flatMap_cons, List.append_assoc]

/-- Inner loop of `buildRaw`: a missing pixel index in the row makes the
whole row fold fail (Python's `IndexError`). -/
theorem row_fold_none (px : List Pixel) (w y : ℕ) :
    ∀ (k a : ℕ), (∃ j, j < k ∧ px[y * w + (a + j)]? = none) →
    ∀ acc, (List.range' a k).foldlM (rowStep px w y) acc = none := by
  intro k
  induction k with
  | zero => rintro a ⟨j, hj, _⟩ acc; omega
  | succ n ih =>
    rintro a ⟨j, hj, hnone⟩ acc
    rw [List.range'_succ, List.foldlM_cons]
    rcases Nat.eq_zero_or_pos j with rfl | hjpos
    · have hstep : rowStep px w y acc a = none := by
        unfold rowStep
        have h0 : px[y * w + a]? = none := by simpa using hnone
        rw [h0]
        rfl
      rw [hstep]
      rfl
    · cases hstep : rowStep px w y acc a with
      | none => rfl
      | some acc2 =>
        have hrec := ih (a + 1) ⟨j - 1, by omega, by
          have heq : y * w + (a + 1 + (j - 1)) = y * w + (a + j) := by omega
          rw [heq]
          exact hnone⟩ acc2
        exact hrec

/-- Outer loop of `buildRaw`: a missing pixel index in some row makes the
whole fold fail. -/
theorem rows_fold_none (px : List Pixel) (w : ℕ) :
    ∀ (h b : ℕ), (∃ r j, r < h ∧ j < w ∧ px[(b + r) * w + j]? = none) →
    ∀ acc, (List.range' b h).foldlM
      (fun raw y => (List.range' 0 w).foldlM (rowStep px w y) (raw ++ [0])) acc
      = none := by
  intro h
  induction h with
  | zero => rintro b ⟨r, j, hr, _, _⟩ acc; omega
  | succ n ih =>
    rintro b ⟨r, j, hr, hj, hnone⟩ acc
    rw [List.range'_succ, List.foldlM_cons]
    rcases Nat.eq_zero_or_pos r with rfl | hrpos
    · have hrow : (List.range' 0 w).foldlM (rowStep px w b) (acc ++ [0]) = none := by
        apply row_fold_none px w b w 0 ⟨j, hj, ?_⟩
        simpa using hnone
      rw [hrow]
      rfl
    · cases hstep : (List.range' 0 w).foldlM (rowStep px w b) (acc ++ [0]) with
      | none => rfl
      | some acc2 =>
        have hrec := ih (b + 1) ⟨r - 1, j, by omega, hj, by
          have heq : b + 1 + (r - 1) = b + r := by omega
          rw [heq]
          exact hnone⟩ acc2
        exact hrec

/-- Two foldlM step functions that agree on the traversed elements give the
same fold. -/
theorem foldlM_step_congr {α : Type} (f g : List ℕ → α → Option (List ℕ)) :
    ∀ (l : List α), (∀ x ∈ l, ∀ acc, f acc x = g acc x) →
    ∀ acc, l.foldlM f acc = l.foldlM g acc := by
  intro l
  induction l with
  | nil => intro _ acc; rfl
  | cons z zs ih =>
    intro hfg acc
    rw [List.foldlM_cons, List.foldlM_cons, hfg z (List.mem_cons_self z zs) acc]
    cases hz : g acc z with
    | none => rfl
    | some acc2 =>
      exact ih (fun x hx => hfg x (List.mem_cons_of_mem z hx)) acc2

/-- `buildRaw` reads only the first `width * height` pixels. -/
theorem buildRaw_take (w h : ℕ) (px : List Pixel) :
    buildRaw w h px = buildRaw w h (px.take (w * h)) := by
  rw [buildRaw_eq, buildRaw_eq]
  apply foldlM_step_congr _ _ _ ?_
  intro y hy acc
  apply foldlM_step_congr _ _ _ ?_
  intro x hx acc2
  have hyh : y < h := by
    have := List.mem_range'_1.1 hy
    omega
  have hxw : x < w := by
    have := List.mem_range'_1.1 hx
    omega
  have hmul : (y + 1) * w ≤ h * w := Nat.mul_le_mul_right w hyh
  have hidx : y * w + x < w * h := by
    have h1 : y * w + w = (y + 1) * w := (Nat.succ_mul y w).symm
    have h2 : h * w = w * h := Nat.mul_comm h w
    omega
  unfold rowStep
  rw [List.getElem?_take, if_pos hidx]

/-! ## Encoder claims -/

/-- C7: for `width, height ≥ 1` and a byte-valued pixel sequence of length
`width * height`, the raw scanline buffer built by `create_png` before
compression is, row by row, a single filter-type byte 0 followed by the
4 bytes (R,G,B,A) of each of the row's `width` pixels — filter type 0
throughout. -/
theorem c7_scanline_structure (w h : ℕ) (px : List Pixel) (hw : 1 ≤ w)
    (hh : 1 ≤ h) (hlen : px.length = w * h) (hval : ∀ p ∈ px, validPixel p) :
    buildRaw w h px = some (scanlineSpec w h px) := by
  rw [buildRaw_eq]
  have hidx : ∀ r j, r < h → j < w →
      ∃ p, px[(0 + r) * w + j]? = some p ∧ validPixel p := by
    intro r j hr hj
    have h1 : r * w + w = (r + 1) * w := (Nat.succ_mul r w).symm
    have h2 : (r + 1) * w ≤ h * w := Nat.mul_le_mul_right w hr
    have h3 : h * w = w * h := Nat.mul_comm h w
    have hlt : (0 + r) * w + j < px.length := by
      rw [hlen]
      simp only [Nat.zero_add]
      omega
    exact ⟨px[(0 + r) * w + j], List.getElem?_eq_getElem hlt,
      hval _ (List.getElem_mem hlt)⟩
  rw [rows_fold_eq px w h 0 [] hidx]
  simp [scanlineSpec, List.range_eq_range']

theorem c7_witness :
    buildRaw 1 1 [((10 : ℤ), (20 : ℤ), (30 : ℤ), (40 : ℤ))]
      = some (scanlineSpec 1 1 [((10 : ℤ), (20 : ℤ), (30 : ℤ), (40 : ℤ))]) :=
  c7_scanline_structure 1 1 [((10 : ℤ), (20 : ℤ), (30 : ℤ), (40 : ℤ))]
    (by decide) (by decide) (by decide) (by decide)

/-- C6 counterexample: for the 1×1 image and the empty pixel sequence
(length 0 ≠ 1), `create_png` produces no byte buffer at all — the indexing
`pixels[0]` fails (Python raises `IndexError`) — contradicting the claim
that every mismatched sequence silently yields a (malformed) buffer. -/
theorem c6_counterexample : create_png id 1 1 [] = none := by decide

/-- C6 (amended): `create_png` performs no validation of the pixel count.
A sequence shorter than `width * height` makes the scanline loop's indexing
fail (an `IndexError`, not an explicit validation error, and no buffer); a
sequence of length at least `width * height` is accepted silently, the
excess pixels being ignored (the output equals that of the truncated
sequence). -/
theorem c6_no_length_validation (compress : List ℕ → List ℕ) (w h : ℕ)
    (short long : List Pixel) (hw : 1 ≤ w) (hh : 1 ≤ h)
    (hshort : short.length < w * h) (hlong : w * h ≤ long.length) :
    create_png compress w h short = none ∧
    create_png compress w h long = create_png compress w h (long.take (w * h)) := by
  constructor
  · have hb : buildRaw w h short = none := by
      rw [buildRaw_eq]
      have hwpos : 0 < w := hw
      have hcomm : w * h = h * w := Nat.mul_comm w h
      have hr : short.length / w < h :=
        (Nat.div_lt_iff_lt_mul hwpos).2 (by omega)
      have hj : short.length % w < w := Nat.mod_lt _ hwpos
      apply rows_fold_none short w h 0 ⟨short.length / w, short.length % w, hr, hj, ?_⟩
      have hdm := Nat.div_add_mod short.length w
      have hmulc : (short.length / w) * w = w * (short.length / w) := Nat.mul_comm _ _
      have hidx : (0 + short.length / w) * w + short.length % w = short.length := by
        rw [Nat.zero_add]
        omega
      rw [hidx]
      exact List.getElem?_eq_none (le_refl _)
    unfold create_png
    rw [hb]
    rfl
  · unfold create_png
    rw [buildRaw_take w h long]

theorem c6_witness :
    create_png id 1 1 [] = none ∧
    create_png id 1 1 [((0 : ℤ), (0 : ℤ), (0 : ℤ), (0 : ℤ)), ((1 : ℤ), (2 : ℤ), (3 : ℤ), (4 : ℤ))]
      = create_png id 1 1
          ([((0 : ℤ), (0 : ℤ), (0 : ℤ), (0 : ℤ)), ((1 : ℤ), (2 : ℤ), (3 : ℤ), (4 : ℤ))].take (1 * 1)) :=
  c6_no_length_validation id 1 1 []
    [((0 : ℤ), (0 : ℤ), (0 : ℤ), (0 : ℤ)), ((1 : ℤ), (2 : ℤ), (3 : ℤ), (4 : ℤ))]
    (by decide) (by decide) (by decide) (by decide)

theorem chunk_eq_ser {ctype data : List ℕ} (h : data.length < 4294967296) :
    chunk ctype data = some (chunkSer ctype data) := by
  simp only [chunk, chunkSer]
  rw [if_pos h]
  simp [List.append_assoc]

theorem storedCRC_chunkSer (ctype data : List ℕ) :
    storedCRC (chunkSer ctype data)
      = be32 (crc32 (ctype ++ data) &&& 0xffffffff) := by
  have hassoc : chunkSer ctype data
      = (be32 data.length ++ ctype ++ data) ++
          be32 (crc32 (ctype ++ data) &&& 0xffffffff) := by
    simp [chunkSer, List.append_assoc]
  unfold storedCRC
  rw [hassoc]
  have hlen : ((be32 data.length ++ ctype ++ data) ++
        be32 (crc32 (ctype ++ data) &&& 0xffffffff)).length - 4
      = (be32 data.length ++ ctype ++ data).length := by
    simp [be32]
    omega
  rw [hlen]
  exact List.drop_left _ _

/-- C4: every chunk of a buffer produced by `create_png` is serialized as a
4-byte big-endian length of the payload alone, the 4-byte ASCII type tag,
the payload, and a 4-byte big-endian CRC-32 computed over
(type tag + payload); in particular the stored CRC field of each chunk
equals the CRC-32 recomputed over (type + payload). -/
theorem c4_chunk_format (compress : List ℕ → List ℕ) (w h : ℕ)
    (px : List Pixel) (raw ihdr buf : List ℕ)
    (h1 : buildRaw w h px = some raw) (h2 : packIHDR w h = some ihdr)
    (h3 : create_png compress w h px = some buf) :
    buf = pngSig ++ chunkSer ihdrTag ihdr ++ chunkSer idatTag (compress raw) ++
      chunkSer iendTag [] ∧
    storedCRC (chunkSer ihdrTag ihdr)
      = be32 (crc32 (ihdrTag ++ ihdr) &&& 0xffffffff) ∧
    storedCRC (chunkSer idatTag (compress raw))
      = be32 (crc32 (idatTag ++ compress raw) &&& 0xffffffff) ∧
    storedCRC (chunkSer iendTag [])
      = be32 (crc32 (iendTag ++ []) &&& 0xffffffff) := by
  refine ⟨?_, storedCRC_chunkSer _ _, storedCRC_chunkSer _ _, storedCRC_chunkSer _ _⟩
  have hihdr : ihdr.length = 13 := by
    by_cases hg : w < 4294967296 ∧ h < 4294967296
    · unfold packIHDR at h2
      rw [if_pos hg] at h2
      have hi := (Option.some.inj h2).symm
      rw [hi]
      simp [be32]
    · unfold packIHDR at h2
      rw [if_neg hg] at h2
      exact absurd h2 (by simp)
  have hc1 : chunk ihdrTag ihdr = some (chunkSer ihdrTag ihdr) :=
    chunk_eq_ser (by rw [hihdr]; norm_num)
  have hc3 : chunk iendTag [] = some (chunkSer iendTag []) :=
    chunk_eq_ser (by simp)
  by_cases hg2 : (compress raw).length < 4294967296
  · have hc2 : chunk idatTag (compress raw) = some (chunkSer idatTag (compress raw)) :=
      chunk_eq_ser hg2
    unfold create_png at h3
    rw [h1] at h3
    simp only [h2, hc1, hc2, hc3, Option.bind_eq_bind, Option.some_bind,
      Option.pure_def, Option.some.injEq] at h3
    exact h3.symm
  · have hc2 : chunk idatTag (compress raw) = none := by
      simp only [chunk]
      rw [if_neg hg2]
    unfold create_png at h3
    rw [h1] at h3
    simp [h2, hc1, hc2] at h3

set_option maxRecDepth 100000 in
theorem c4_witness :
    (pngSig ++ chunkSer ihdrTag [0, 0, 0, 1, 0, 0, 0, 1, 8, 6, 0, 0, 0] ++
        chunkSer idatTag (id [0, 0, 0, 0, 0]) ++ chunkSer iendTag [])
      = pngSig ++ chunkSer ihdrTag [0, 0, 0, 1, 0, 0, 0, 1, 8, 6, 0, 0, 0] ++
        chunkSer idatTag (id [0, 0, 0, 0, 0]) ++ chunkSer iendTag [] ∧
    storedCRC (chunkSer ihdrTag [0, 0, 0, 1, 0, 0, 0, 1, 8, 6, 0, 0, 0])
      = be32 (crc32 (ihdrTag ++ [0, 0, 0, 1, 0, 0, 0, 1, 8, 6, 0, 0, 0]) &&& 0xffffffff) ∧
    storedCRC (chunkSer idatTag (id [0, 0, 0, 0, 0]))
      = be32 (crc32 (idatTag ++ id [0, 0, 0, 0, 0]) &&& 0xffffffff) ∧
    storedCRC (chunkSer iendTag [])
      = be32 (crc32 (iendTag ++ []) &&& 0xffffffff) :=
  c4_chunk_format id 1 1 [((0 : ℤ), (0 : ℤ), (0 : ℤ), (0 : ℤ))] [0, 0, 0, 0, 0]
    [0, 0, 0, 1, 0, 0, 0, 1, 8, 6, 0, 0, 0]
    (pngSig ++ chunkSer ihdrTag [0, 0, 0, 1, 0, 0, 0, 1, 8, 6, 0, 0, 0] ++
      chunkSer idatTag (id [0, 0, 0, 0, 0]) ++ chunkSer iendTag [])
    (by decide) (by decide) (by decide)
